import Mathlib

/-!
Verification of the recurrence/completion-period engine of the Child-Task-Tracker
server (final, ledger-based data model of `server` with the `task_completions`
table).  Dates are stored and compared by the server as zero-padded `YYYY-MM-DD`
strings; we model them as year/month/day triples with the lexicographic order,
which coincides with the string order for four-digit years.  JavaScript `Date`
construction semantics (out-of-range month and day fields rolling into adjacent
months and years) are modelled by `normDays` / `jsDate` / `jsSetDate`.
-/

set_option maxHeartbeats 1000000

namespace TaskTracker

/-- A calendar date: the model of the `YYYY-MM-DD` strings stored in the
`completed_date` column and produced by the server's `formatDate`. -/
structure Date where
  year : Int
  month : Int
  day : Int
deriving DecidableEq

/-- Date comparison, as the server performs it on `YYYY-MM-DD` strings with
`>=` / SQL string comparison: lexicographic on (year, month, day). -/
def dateLe (a b : Date) : Bool :=
  decide (a.year < b.year ∨ (a.year = b.year ∧
    (a.month < b.month ∨ (a.month = b.month ∧ a.day ≤ b.day))))

/-- Strict date comparison, as used by the retention sweep's
`completed_date < ?` SQL predicate. -/
def dateLt (a b : Date) : Bool :=
  decide (a.year < b.year ∨ (a.year = b.year ∧
    (a.month < b.month ∨ (a.month = b.month ∧ a.day < b.day))))

/-- Gregorian leap-year test (the rule implemented by the JavaScript `Date`
library that the server's date arithmetic relies on). -/
def isLeapYear (y : Int) : Bool :=
  decide ((y % 4 = 0 ∧ ¬ y % 100 = 0) ∨ y % 400 = 0)

/-- Number of days in a month of the Gregorian calendar. -/
def daysInMonth (y m : Int) : Int :=
  if m = 2 then (if isLeapYear y then 29 else 28)
  else if m = 4 ∨ m = 6 ∨ m = 9 ∨ m = 11 then 30
  else 31

/-- Year of the month preceding month `m` of year `y`. -/
def prevMonthYear (y m : Int) : Int := if m = 1 then y - 1 else y

/-- The month preceding month `m`. -/
def prevMonth (m : Int) : Int := if m = 1 then 12 else m - 1

/-- Year of the month following month `m` of year `y`. -/
def nextMonthYear (y m : Int) : Int := if m = 12 then y + 1 else y

/-- The month following month `m`. -/
def nextMonth (m : Int) : Int := if m = 12 then 1 else m + 1

/-- Roll an out-of-range day-of-month into adjacent months, exactly as
JavaScript `Date` normalises its day field.  `fuel` bounds the recursion;
every call in this development supplies enough fuel to reach a fixed point. -/
def normDays : Nat → Int → Int → Int → Date
  | 0, y, m, d => ⟨y, m, d⟩
  | fuel + 1, y, m, d =>
    if d < 1 then
      normDays fuel (prevMonthYear y m) (prevMonth m)
        (d + daysInMonth (prevMonthYear y m) (prevMonth m))
    else if daysInMonth y m < d then
      normDays fuel (nextMonthYear y m) (nextMonth m) (d - daysInMonth y m)
    else ⟨y, m, d⟩

/-- Model of the JavaScript constructor `new Date(y, mIdx, d)`: `mIdx` is the
0-based month index; out-of-range month and day fields roll into adjacent
years and months. -/
def jsDate (y mIdx d : Int) : Date :=
  normDays (d.natAbs + 24) (y + mIdx / 12) (mIdx % 12 + 1) d

/-- Model of `date.setDate(d)` on a JavaScript `Date`: replace the day field
by `d` and normalise. -/
def jsSetDate (dt : Date) (d : Int) : Date :=
  normDays (d.natAbs + 24) dt.year dt.month d

/-- A normalized calendar date, as produced by the JavaScript `Date` library. -/
def ValidDate (dt : Date) : Prop :=
  1 ≤ dt.month ∧ dt.month ≤ 12 ∧ 1 ≤ dt.day ∧ dt.day ≤ daysInMonth dt.year dt.month

instance (dt : Date) : Decidable (ValidDate dt) := by
  unfold ValidDate; infer_instance

/-- Number of leap years in `1..y` (for `y ≥ 0`); the standard Gregorian count. -/
def leapCount (y : Int) : Int := y / 4 - y / 100 + y / 400

/-- Days in a non-leap year before the first of month `m`. -/
def monthOffset (m : Int) : Int :=
  if m = 1 then 0 else if m = 2 then 31 else if m = 3 then 59 else if m = 4 then 90
  else if m = 5 then 120 else if m = 6 then 151 else if m = 7 then 181
  else if m = 8 then 212 else if m = 9 then 243 else if m = 10 then 273
  else if m = 11 then 304 else 334

/-- One extra day for dates after February in a leap year. -/
def monthLeapAdj (y m : Int) : Int :=
  if 2 < m ∧ isLeapYear y = true then 1 else 0

/-- Rata-die day number of a date: `0001-01-01` maps to `1`.  For this
numbering `toDays dt % 7` agrees with JavaScript's `getDay()`
(0 = Sunday .. 6 = Saturday); e.g. `1970-01-01` maps to `719163 % 7 = 4`,
a Thursday. -/
def toDays (dt : Date) : Int :=
  365 * (dt.year - 1) + leapCount (dt.year - 1) + monthOffset dt.month
    + monthLeapAdj dt.year dt.month + dt.day

/-- Model of JavaScript `date.getDay()`: day of week, 0 = Sunday .. 6 = Saturday. -/
def getDay (dt : Date) : Int := toDays dt % 7

/-- The sentinel minimum date `'1970-01-01'` returned by `getPeriodStartDate`
for one-time tasks. -/
def epochDate : Date := ⟨1970, 1, 1⟩

/-- The four task frequencies admitted by the `tasks.frequency` CHECK
constraint: `'daily', 'weekly', 'monthly', 'one-time'`. -/
inductive Frequency
  | daily
  | weekly
  | monthly
  | oneTime
deriving DecidableEq

/-- A row of the `tasks` table (columns relevant to the engine). -/
structure Task where
  id : Nat
  user_id : String
  frequency : Frequency
  category_id : Nat
  reset_day : Option Int
deriving DecidableEq

/-- A row of the `categories` table. -/
structure Category where
  id : Nat
  user_id : String
  name : String
deriving DecidableEq

/-- A row of the `task_completions` ledger: one (task, date) completion fact.
The table's `UNIQUE(task_id, completed_date)` constraint makes the ledger a
set of such facts. -/
structure Completion where
  task_id : Nat
  completed_date : Date
deriving DecidableEq

/-- The persistent store: the three tables of the final schema. -/
structure DB where
  categories : List Category
  tasks : List Task
  completions : List Completion
deriving DecidableEq

/-- `getCompletionCutoffDate`: `date.setMonth(date.getMonth() - 3)` on today's
date, i.e. the JavaScript-normalised date three calendar months back
(`COMPLETION_HISTORY_MONTHS = 3`). -/
def getCompletionCutoffDate (today : Date) : Date :=
  jsDate today.year (today.month - 1 - 3) today.day

/-- `getPeriodStartDate(task)`: start of the current period for a task, given
today's date.  `weekly` uses JavaScript's truncating `%` (`Int.tmod`);
`monthly` builds `new Date(y, m, resetDay)` resp. `new Date(y, m - 1, resetDay)`
with `m` the 0-based month index, i.e. `today.month - 1` here. -/
def getPeriodStartDate (today : Date) (task : Task) : Date :=
  match task.frequency with
  | .daily => today
  | .weekly =>
    let resetDay := task.reset_day.getD 0
    let currentDay := getDay today
    let daysSinceReset := Int.tmod (currentDay - resetDay + 7) 7
    jsSetDate today (today.day - daysSinceReset)
  | .monthly =>
    let resetDay := task.reset_day.getD 1
    if resetDay ≤ today.day then
      jsDate today.year (today.month - 1) resetDay
    else
      jsDate today.year (today.month - 1 - 1) resetDay
  | .oneTime => epochDate

/-- `isTaskCompleted(task, completions)`: some fetched fact for the task has
`completed_date >= periodStart`. -/
def isTaskCompleted (today : Date) (task : Task) (completions : List Completion) : Bool :=
  completions.any fun c =>
    c.task_id == task.id && dateLe (getPeriodStartDate today task) c.completed_date

/-- `getUserCompletions(userId)`: all ledger facts joined to a task of this
user and dated on or after the completion cutoff (three months back). -/
def getUserCompletions (db : DB) (userId : String) (today : Date) : List Completion :=
  db.completions.filter fun c =>
    db.tasks.any (fun t => t.id == c.task_id && t.user_id == userId)
      && dateLe (getCompletionCutoffDate today) c.completed_date

/-- The derived `completed` status the `GET /api/tasks` and toggle endpoints
attach to a task: `isTaskCompleted` over the user's fetched facts. -/
def taskStatus (db : DB) (userId : String) (today : Date) (task : Task) : Bool :=
  isTaskCompleted today task (getUserCompletions db userId today)

/-- `INSERT OR IGNORE INTO task_completions`: add the (task, date) fact unless
it is already present (the `UNIQUE(task_id, completed_date)` constraint). -/
def record (L : List Completion) (t : Nat) (d : Date) : List Completion :=
  if L.any (fun c => c.task_id == t && c.completed_date == d) then L
  else L ++ [⟨t, d⟩]

/-- `DELETE FROM task_completions WHERE task_id = ? AND completed_date = ?`. -/
def unrecord (L : List Completion) (t : Nat) (d : Date) : List Completion :=
  L.filter fun c => !(c.task_id == t && c.completed_date == d)

/-- `PATCH /api/tasks/:id/toggle`: 404 (no state change) unless the task
exists and is owned by the requester; otherwise delete today's completion
fact if present, else insert it. -/
def toggleTask (db : DB) (id : Nat) (userId : String) (today : Date) : DB :=
  if db.tasks.any (fun t => t.id == id && t.user_id == userId) then
    if db.completions.any (fun c => c.task_id == id && c.completed_date == today) then
      { db with completions := unrecord db.completions id today }
    else
      { db with completions := record db.completions id today }
  else db

/-- `cleanupOldCompletions`: `DELETE FROM task_completions WHERE
completed_date < cutoff` with the three-month cutoff. -/
def cleanupOldCompletions (db : DB) (today : Date) : DB :=
  { db with completions :=
      db.completions.filter fun c =>
        !(dateLt c.completed_date (getCompletionCutoffDate today)) }

/-- `DELETE /api/categories/:id`: 404 (no state change) unless the category
exists and is owned by the requester; otherwise delete the user's tasks of
this category — each task deletion removing that task's completion facts via
the schema's `FOREIGN KEY (task_id) REFERENCES tasks(id) ON DELETE CASCADE` —
and then delete the category row. -/
def deleteCategory (db : DB) (cid : Nat) (userId : String) : DB :=
  if db.categories.any (fun c => c.id == cid && c.user_id == userId) then
    { categories := db.categories.filter fun c => !(c.id == cid && c.user_id == userId),
      tasks := db.tasks.filter fun t => !(t.category_id == cid && t.user_id == userId),
      completions := db.completions.filter fun c =>
        !(db.tasks.any fun t => (t.category_id == cid && t.user_id == userId) && t.id == c.task_id) }
  else db

/-- The next occurrence of day-of-month `R` strictly after the current monthly
period start, in the sense of claim C3's "the following occurrence of day R"
(well defined for `R ≤ 28`, which never overflows a month). -/
def nextMonthlyPeriodStart (today : Date) (R : Int) : Date :=
  if R ≤ today.day then
    if today.month = 12 then ⟨today.year + 1, 1, R⟩ else ⟨today.year, today.month + 1, R⟩
  else ⟨today.year, today.month, R⟩

lemma dateLe_iff (a b : Date) :
    dateLe a b = true ↔
      a.year < b.year ∨ (a.year = b.year ∧
        (a.month < b.month ∨ (a.month = b.month ∧ a.day ≤ b.day))) := by
  simp [dateLe]

lemma dateLt_iff (a b : Date) :
    dateLt a b = true ↔
      a.year < b.year ∨ (a.year = b.year ∧
        (a.month < b.month ∨ (a.month = b.month ∧ a.day < b.day))) := by
  simp [dateLt]

lemma dateLe_refl (a : Date) : dateLe a a = true := by
  simp [dateLe_iff]

lemma dateLe_trans {a b c : Date} (h1 : dateLe a b = true) (h2 : dateLe b c = true) :
    dateLe a c = true := by
  rw [dateLe_iff] at h1 h2 ⊢
  rcases h1 with h1 | ⟨e1, h1⟩ <;> rcases h2 with h2 | ⟨e2, h2⟩
  · exact Or.inl (by omega)
  · exact Or.inl (by omega)
  · exact Or.inl (by omega)
  · refine Or.inr ⟨by omega, ?_⟩
    rcases h1 with h1 | ⟨f1, h1⟩ <;> rcases h2 with h2 | ⟨f2, h2⟩ <;> omega

lemma dateLe_antisymm {a b : Date} (h1 : dateLe a b = true) (h2 : dateLe b a = true) :
    a = b := by
  rw [dateLe_iff] at h1 h2
  rcases a with ⟨ay, am, ad⟩
  rcases b with ⟨by_, bm, bd⟩
  simp only [Date.mk.injEq]
  simp only at h1 h2
  omega

lemma daysInMonth_bounds (y m : Int) : 28 ≤ daysInMonth y m ∧ daysInMonth y m ≤ 31 := by
  unfold daysInMonth
  split_ifs <;> omega

lemma prevMonth_bounds {m : Int} (h1 : 1 ≤ m) (h2 : m ≤ 12) :
    1 ≤ prevMonth m ∧ prevMonth m ≤ 12 := by
  unfold prevMonth
  split_ifs <;> omega

lemma normDays_in_range (fuel : Nat) (y m d : Int) (h1 : 1 ≤ d)
    (h2 : d ≤ daysInMonth y m) : normDays fuel y m d = ⟨y, m, d⟩ := by
  cases fuel with
  | zero => rfl
  | succ n =>
    simp only [normDays]
    rw [if_neg (by omega), if_neg (by omega)]

lemma normDays_borrow (fuel : Nat) (y m d : Int) (h : d < 1) :
    normDays (fuel + 1) y m d =
      normDays fuel (prevMonthYear y m) (prevMonth m)
        (d + daysInMonth (prevMonthYear y m) (prevMonth m)) := by
  simp only [normDays]
  rw [if_pos h]

lemma normDays_carry (fuel : Nat) (y m d : Int) (h1 : ¬ d < 1)
    (h2 : daysInMonth y m < d) :
    normDays (fuel + 1) y m d =
      normDays fuel (nextMonthYear y m) (nextMonth m) (d - daysInMonth y m) := by
  simp only [normDays]
  rw [if_neg h1, if_pos h2]

lemma leapCount_sub (y : Int) :
    leapCount y - leapCount (y - 1) = if isLeapYear y = true then 1 else 0 := by
  by_cases p4 : y % 4 = 0 <;> by_cases p100 : y % 100 = 0 <;> by_cases p400 : y % 400 = 0 <;>
    simp [leapCount, isLeapYear, p4, p100, p400] <;> omega

lemma toDays_day_shift (y m d e : Int) :
    toDays ⟨y, m, d⟩ = toDays ⟨y, m, e⟩ + (d - e) := by
  simp only [toDays]
  ring

lemma toDays_prev_month (y m d : Int) (h1 : 1 ≤ m) (h2 : m ≤ 12) :
    toDays ⟨prevMonthYear y m, prevMonth m,
        d + daysInMonth (prevMonthYear y m) (prevMonth m)⟩
      = toDays ⟨y, m, d⟩ := by
  by_cases hm : m = 1
  · subst hm
    have hlc := leapCount_sub (y - 1)
    simp only [prevMonthYear, prevMonth, if_pos rfl, toDays, monthOffset, monthLeapAdj,
      daysInMonth]
    norm_num
    cases hL : isLeapYear (y - 1) <;> simp [hL] at hlc ⊢ <;> omega
  · have h2m : 2 ≤ m := by omega
    simp only [prevMonthYear, prevMonth, if_neg hm]
    interval_cases m <;>
      cases hL : isLeapYear y <;>
        simp [toDays, monthOffset, monthLeapAdj, daysInMonth, hL] <;> omega

lemma jsSetDate_sub (dt : Date) (k : Int) (hv : ValidDate dt) (hk0 : 0 ≤ k)
    (hk6 : k ≤ 6) :
    ValidDate (jsSetDate dt (dt.day - k)) ∧
      toDays (jsSetDate dt (dt.day - k)) = toDays dt - k ∧
      dateLe (jsSetDate dt (dt.day - k)) dt = true := by
  obtain ⟨hm1, hm2, hd1, hd2⟩ := hv
  have hdim := daysInMonth_bounds dt.year dt.month
  have heta : (⟨dt.year, dt.month, dt.day⟩ : Date) = dt := rfl
  unfold jsSetDate
  by_cases hcase : 1 ≤ dt.day - k
  · rw [normDays_in_range _ _ _ _ hcase (by omega)]
    have hshift := toDays_day_shift dt.year dt.month (dt.day - k) dt.day
    rw [heta] at hshift
    refine ⟨⟨hm1, hm2, hcase, (by omega : dt.day - k ≤ daysInMonth dt.year dt.month)⟩,
      ?_, ?_⟩
    · rw [hshift]; omega
    · rw [dateLe_iff]
      exact Or.inr ⟨rfl, Or.inr ⟨rfl, (by omega : dt.day - k ≤ dt.day)⟩⟩
  · have hfuel : (dt.day - k).natAbs + 24 = ((dt.day - k).natAbs + 23) + 1 := by omega
    rw [hfuel, normDays_borrow _ _ _ _ (by omega)]
    have hpm := prevMonth_bounds hm1 hm2
    have hdim2 := daysInMonth_bounds (prevMonthYear dt.year dt.month) (prevMonth dt.month)
    rw [normDays_in_range _ _ _ _ (by omega) (by omega)]
    have hprev := toDays_prev_month dt.year dt.month (dt.day - k) hm1 hm2
    have hshift := toDays_day_shift dt.year dt.month (dt.day - k) dt.day
    rw [heta] at hshift
    refine ⟨⟨hpm.1, hpm.2,
      (by omega : 1 ≤ dt.day - k +
        daysInMonth (prevMonthYear dt.year dt.month) (prevMonth dt.month)),
      (by omega : dt.day - k +
          daysInMonth (prevMonthYear dt.year dt.month) (prevMonth dt.month) ≤
        daysInMonth (prevMonthYear dt.year dt.month) (prevMonth dt.month))⟩, ?_, ?_⟩
    · rw [hprev, hshift]; omega
    · rw [dateLe_iff]
      by_cases h1 : dt.month = 1
      · have hy : prevMonthYear dt.year dt.month = dt.year - 1 := by
          simp [prevMonthYear, h1]
        exact Or.inl (by omega : prevMonthYear dt.year dt.month < dt.year)
      · have hy : prevMonthYear dt.year dt.month = dt.year := by
          simp [prevMonthYear, h1]
        have hmth : prevMonth dt.month = dt.month - 1 := by
          simp [prevMonth, h1]
        exact Or.inr ⟨hy, Or.inl (by omega : prevMonth dt.month < dt.month)⟩

/-- C2: for a weekly task with reset day `R ∈ 0..6`, the computed period start
is a date with weekday `R`, is ≤ today (in the stored-string order), and lies
at most 6 days before today. -/
theorem weekly_period_start (today : Date) (task : Task) (R : Int)
    (hv : ValidDate today) (hf : task.frequency = Frequency.weekly)
    (hr : task.reset_day = some R) (hR0 : 0 ≤ R) (hR6 : R ≤ 6) :
    getDay (getPeriodStartDate today task) = R ∧
      dateLe (getPeriodStartDate today task) today = true ∧
      0 ≤ toDays today - toDays (getPeriodStartDate today task) ∧
      toDays today - toDays (getPeriodStartDate today task) ≤ 6 := by
  have hw0 : 0 ≤ getDay today := Int.emod_nonneg _ (by norm_num)
  have hw6 : getDay today < 7 := Int.emod_lt_of_pos _ (by norm_num)
  have htm : Int.tmod (getDay today - R + 7) 7 = (getDay today - R + 7) % 7 :=
    Int.tmod_eq_emod (by omega) (by norm_num)
  have hps : getPeriodStartDate today task =
      jsSetDate today (today.day - (getDay today - R + 7) % 7) := by
    simp only [getPeriodStartDate, hf, hr, Option.getD_some, htm]
  have hk0 : 0 ≤ (getDay today - R + 7) % 7 := by omega
  have hk6 : (getDay today - R + 7) % 7 ≤ 6 := by omega
  obtain ⟨hval, htd, hle⟩ := jsSetDate_sub today ((getDay today - R + 7) % 7) hv hk0 hk6
  rw [hps]
  refine ⟨?_, hle, by omega, by omega⟩
  rw [getDay, htd]
  have hwd : getDay today = toDays today % 7 := rfl
  omega

/-- Witness for C2 at today = 2024-06-15 (a Saturday) and R = 0 (Sunday):
the period start is the preceding Sunday, 2024-06-09. -/
theorem weekly_period_start_witness :
    ValidDate ⟨2024, 6, 15⟩ ∧
      (getDay (getPeriodStartDate ⟨2024, 6, 15⟩ ⟨1, "u", Frequency.weekly, 1, some 0⟩) = 0 ∧
        dateLe (getPeriodStartDate ⟨2024, 6, 15⟩ ⟨1, "u", Frequency.weekly, 1, some 0⟩)
          ⟨2024, 6, 15⟩ = true ∧
        0 ≤ toDays ⟨2024, 6, 15⟩ -
            toDays (getPeriodStartDate ⟨2024, 6, 15⟩ ⟨1, "u", Frequency.weekly, 1, some 0⟩) ∧
        toDays ⟨2024, 6, 15⟩ -
            toDays (getPeriodStartDate ⟨2024, 6, 15⟩ ⟨1, "u", Frequency.weekly, 1, some 0⟩) ≤ 6) :=
  ⟨by decide,
    weekly_period_start ⟨2024, 6, 15⟩ ⟨1, "u", Frequency.weekly, 1, some 0⟩ 0
      (by decide) rfl rfl (by decide) (by decide)⟩

lemma jsDate_eval (y mIdx d : Int) (h0 : 0 ≤ mIdx) (h11 : mIdx ≤ 11) (hd1 : 1 ≤ d)
    (hd : d ≤ daysInMonth y (mIdx + 1)) : jsDate y mIdx d = ⟨y, mIdx + 1, d⟩ := by
  unfold jsDate
  have e1 : mIdx / 12 = 0 := by omega
  have e2 : mIdx % 12 = mIdx := by omega
  have e3 : y + (0 : Int) = y := by ring
  rw [e1, e3, e2, normDays_in_range _ _ _ _ hd1 hd]

lemma jsDate_neg_one (y d : Int) (hd1 : 1 ≤ d) (hd : d ≤ daysInMonth (y - 1) 12) :
    jsDate y (-1) d = ⟨y - 1, 12, d⟩ := by
  unfold jsDate
  have e1 : (-1 : Int) / 12 = -1 := by decide
  have e2 : (-1 : Int) % 12 = 11 := by decide
  have e3 : y + (-1 : Int) = y - 1 := by ring
  have e4 : (11 : Int) + 1 = 12 := by norm_num
  rw [e1, e3, e2, e4, normDays_in_range _ _ _ _ hd1 hd]

lemma jsDate_twelve (y d : Int) (hd1 : 1 ≤ d) (hd : d ≤ daysInMonth (y + 1) 1) :
    jsDate y 12 d = ⟨y + 1, 1, d⟩ := by
  unfold jsDate
  have e1 : (12 : Int) / 12 = 1 := by decide
  have e2 : (12 : Int) % 12 = 0 := by decide
  rw [e1, e2]
  norm_num
  exact normDays_in_range _ _ _ _ hd1 hd

/-- C3: for a monthly task with reset day `R ∈ 1..28`, the computed period
start has day-of-month `R`, is ≤ today, and today is strictly before the next
occurrence of day `R` (including across the January/December boundary). -/
theorem monthly_period_start (today : Date) (task : Task) (R : Int)
    (hv : ValidDate today) (hf : task.frequency = Frequency.monthly)
    (hr : task.reset_day = some R) (hR1 : 1 ≤ R) (hR28 : R ≤ 28) :
    (getPeriodStartDate today task).day = R ∧
      dateLe (getPeriodStartDate today task) today = true ∧
      dateLt today (nextMonthlyPeriodStart today R) = true := by
  obtain ⟨hm1, hm2, hd1, hd2⟩ := hv
  have hps : getPeriodStartDate today task =
      (if R ≤ today.day then jsDate today.year (today.month - 1) R
       else jsDate today.year (today.month - 1 - 1) R) := by
    simp only [getPeriodStartDate, hf, hr, Option.getD_some]
  rw [hps]
  by_cases hc : R ≤ today.day
  · rw [if_pos hc]
    have hdimt := daysInMonth_bounds today.year today.month
    have hm : today.month - 1 + 1 = today.month := by ring
    have heval : jsDate today.year (today.month - 1) R = ⟨today.year, today.month, R⟩ := by
      rw [jsDate_eval today.year (today.month - 1) R (by omega) (by omega) hR1
        (by rw [hm]; omega), hm]
    rw [heval]
    refine ⟨rfl, ?_, ?_⟩
    · rw [dateLe_iff]
      exact Or.inr ⟨rfl, Or.inr ⟨rfl, hc⟩⟩
    · rw [nextMonthlyPeriodStart, if_pos hc, dateLt_iff]
      by_cases h12 : today.month = 12
      · rw [if_pos h12]
        exact Or.inl (by omega : today.year < today.year + 1)
      · rw [if_neg h12]
        exact Or.inr ⟨rfl, Or.inl (by omega : today.month < today.month + 1)⟩
  · rw [if_neg hc]
    have hnext : dateLt today (nextMonthlyPeriodStart today R) = true := by
      rw [nextMonthlyPeriodStart, if_neg hc, dateLt_iff]
      exact Or.inr ⟨rfl, Or.inr ⟨rfl, (by omega : today.day < R)⟩⟩
    by_cases h1 : today.month = 1
    · have heval : jsDate today.year (today.month - 1 - 1) R = ⟨today.year - 1, 12, R⟩ := by
        rw [h1]
        norm_num
        exact jsDate_neg_one today.year R hR1
          (by have := daysInMonth_bounds (today.year - 1) 12; omega)
      rw [heval]
      refine ⟨rfl, ?_, hnext⟩
      rw [dateLe_iff]
      exact Or.inl (by omega : today.year - 1 < today.year)
    · have hmm : today.month - 1 - 1 + 1 = today.month - 1 := by ring
      have heval : jsDate today.year (today.month - 1 - 1) R =
          ⟨today.year, today.month - 1, R⟩ := by
        rw [jsDate_eval today.year (today.month - 1 - 1) R (by omega) (by omega) hR1
          (by rw [hmm]; have := daysInMonth_bounds today.year (today.month - 1); omega), hmm]
      rw [heval]
      refine ⟨rfl, ?_, hnext⟩
      rw [dateLe_iff]
      exact Or.inr ⟨rfl, Or.inl (by omega : today.month - 1 < today.month)⟩

/-- Witness for C3 at today = 2024-01-10 with R = 15: the period start is
2023-12-15 (January-to-previous-December boundary) and the next period start
2024-01-15 is strictly after today. -/
theorem monthly_period_start_witness :
    ValidDate ⟨2024, 1, 10⟩ ∧
      ((getPeriodStartDate ⟨2024, 1, 10⟩ ⟨1, "u", Frequency.monthly, 1, some 15⟩).day = 15 ∧
        dateLe (getPeriodStartDate ⟨2024, 1, 10⟩ ⟨1, "u", Frequency.monthly, 1, some 15⟩)
          ⟨2024, 1, 10⟩ = true ∧
        dateLt ⟨2024, 1, 10⟩ (nextMonthlyPeriodStart ⟨2024, 1, 10⟩ 15) = true) :=
  ⟨by decide,
    monthly_period_start ⟨2024, 1, 10⟩ ⟨1, "u", Frequency.monthly, 1, some 15⟩ 15
      (by decide) rfl rfl (by decide) (by decide)⟩

/-- C10: with today = 2023-03-01 and a monthly task with reset day 30, the
period start is 2023-03-02 — its day-of-month differs from the reset day and
it lies strictly after today (February 30 rolls over to March 2), so the
derived status is false whenever no completion fact is future-dated. -/
theorem monthly_overflow_period_start (facts : List Completion)
    (hpast : ∀ c ∈ facts, dateLe c.completed_date ⟨2023, 3, 1⟩ = true) :
    getPeriodStartDate ⟨2023, 3, 1⟩ ⟨5, "u", Frequency.monthly, 1, some 30⟩ =
        ⟨2023, 3, 2⟩ ∧
      (getPeriodStartDate ⟨2023, 3, 1⟩ ⟨5, "u", Frequency.monthly, 1, some 30⟩).day ≠ 30 ∧
      dateLt ⟨2023, 3, 1⟩
        (getPeriodStartDate ⟨2023, 3, 1⟩ ⟨5, "u", Frequency.monthly, 1, some 30⟩) = true ∧
      isTaskCompleted ⟨2023, 3, 1⟩ ⟨5, "u", Frequency.monthly, 1, some 30⟩ facts = false := by
  refine ⟨by decide, by decide, by decide, ?_⟩
  rw [isTaskCompleted]
  rw [List.any_eq_false]
  intro c hc
  have hle := hpast c hc
  rw [dateLe_iff] at hle
  simp only [Bool.and_eq_true, beq_iff_eq, not_and]
  intro _
  have hps : getPeriodStartDate ⟨2023, 3, 1⟩ ⟨5, "u", Frequency.monthly, 1, some 30⟩ =
      ⟨2023, 3, 2⟩ := by decide
  rw [hps, dateLe_iff]
  simp only at hle ⊢
  omega

/-- Witness for C10 with a concrete past-dated fact list. -/
theorem monthly_overflow_period_start_witness :
    (∀ c ∈ [(⟨5, ⟨2023, 3, 1⟩⟩ : Completion)],
        dateLe c.completed_date ⟨2023, 3, 1⟩ = true) ∧
      (getPeriodStartDate ⟨2023, 3, 1⟩ ⟨5, "u", Frequency.monthly, 1, some 30⟩ =
          ⟨2023, 3, 2⟩ ∧
        (getPeriodStartDate ⟨2023, 3, 1⟩ ⟨5, "u", Frequency.monthly, 1, some 30⟩).day ≠ 30 ∧
        dateLt ⟨2023, 3, 1⟩
          (getPeriodStartDate ⟨2023, 3, 1⟩ ⟨5, "u", Frequency.monthly, 1, some 30⟩) = true ∧
        isTaskCompleted ⟨2023, 3, 1⟩ ⟨5, "u", Frequency.monthly, 1, some 30⟩
          [⟨5, ⟨2023, 3, 1⟩⟩] = false) :=
  ⟨by decide, monthly_overflow_period_start [⟨5, ⟨2023, 3, 1⟩⟩] (by decide)⟩

/-- C1 counterexample: a fact dated strictly after today (2024-06-16 against
today = 2024-06-15) makes the derived status of a daily task true — the code
compares with `>=`, not `===` — even though no fact is dated exactly today.
So the status is not equivalent to "a fact exists for today's exact date"
over every set of completion facts. -/
theorem daily_status_counterexample :
    isTaskCompleted ⟨2024, 6, 15⟩ ⟨1, "u", Frequency.daily, 1, none⟩
        [⟨1, ⟨2024, 6, 16⟩⟩] = true ∧
      ¬ ∃ c ∈ [(⟨1, ⟨2024, 6, 16⟩⟩ : Completion)],
          c.task_id = 1 ∧ c.completed_date = ⟨2024, 6, 15⟩ := by
  decide

/-- C1 (amended): for a daily task, provided no fact for the task is dated
after today, the derived status is true iff a completion fact exists for the
task dated exactly today. -/
theorem daily_status_amended (today : Date) (task : Task) (facts : List Completion)
    (hf : task.frequency = Frequency.daily)
    (hpast : ∀ c ∈ facts, c.task_id = task.id → dateLe c.completed_date today = true) :
    isTaskCompleted today task facts = true ↔
      ∃ c ∈ facts, c.task_id = task.id ∧ c.completed_date = today := by
  have hps : getPeriodStartDate today task = today := by
    simp only [getPeriodStartDate, hf]
  rw [isTaskCompleted, hps, List.any_eq_true]
  constructor
  · rintro ⟨c, hc, hmatch⟩
    rw [Bool.and_eq_true, beq_iff_eq] at hmatch
    obtain ⟨hid, hge⟩ := hmatch
    exact ⟨c, hc, hid, dateLe_antisymm (hpast c hc hid) hge⟩
  · rintro ⟨c, hc, hid, hdate⟩
    refine ⟨c, hc, ?_⟩
    rw [Bool.and_eq_true, beq_iff_eq, hdate]
    exact ⟨hid, dateLe_refl today⟩

/-- Witness for the amended C1: one fact dated today makes the status true. -/
theorem daily_status_amended_witness :
    (∀ c ∈ [(⟨1, ⟨2024, 6, 15⟩⟩ : Completion)], c.task_id = 1 →
        dateLe c.completed_date ⟨2024, 6, 15⟩ = true) ∧
      (isTaskCompleted ⟨2024, 6, 15⟩ ⟨1, "u", Frequency.daily, 1, none⟩
          [⟨1, ⟨2024, 6, 15⟩⟩] = true ↔
        ∃ c ∈ [(⟨1, ⟨2024, 6, 15⟩⟩ : Completion)],
          c.task_id = 1 ∧ c.completed_date = ⟨2024, 6, 15⟩) :=
  ⟨by decide,
    daily_status_amended ⟨2024, 6, 15⟩ ⟨1, "u", Frequency.daily, 1, none⟩
      [⟨1, ⟨2024, 6, 15⟩⟩] rfl (by decide)⟩

/-- C4 counterexample: a one-time task whose only completion record is dated
2024-01-10 — older than the 3-month fetch cutoff 2024-03-15 when today is
2024-06-15 — has derived status false in the list/toggle responses even
though a completion record exists, because `getUserCompletions` only fetches
facts dated on or after the cutoff. -/
theorem onetime_status_counterexample :
    taskStatus ⟨[], [⟨1, "u", Frequency.oneTime, 1, none⟩], [⟨1, ⟨2024, 1, 10⟩⟩]⟩
        "u" ⟨2024, 6, 15⟩ ⟨1, "u", Frequency.oneTime, 1, none⟩ = false ∧
      ∃ c ∈ [(⟨1, ⟨2024, 1, 10⟩⟩ : Completion)], c.task_id = 1 := by
  decide

/-- C4 (amended): for a one-time task of the requesting user, the derived
status is true iff a completion record for the task exists whose date is on
or after the fetch cutoff (today minus three calendar months); records older
than the cutoff never count.  The hypothesis `hcut` (the epoch sentinel
1970-01-01 does not exceed the cutoff) holds for any modern date. -/
theorem onetime_status_amended (db : DB) (userId : String) (today : Date) (task : Task)
    (ht : task ∈ db.tasks) (hu : task.user_id = userId)
    (hf : task.frequency = Frequency.oneTime)
    (hcut : dateLe epochDate (getCompletionCutoffDate today) = true) :
    taskStatus db userId today task = true ↔
      ∃ c ∈ db.completions, c.task_id = task.id ∧
        dateLe (getCompletionCutoffDate today) c.completed_date = true := by
  have hps : getPeriodStartDate today task = epochDate := by
    simp only [getPeriodStartDate, hf]
  rw [taskStatus, isTaskCompleted, hps, List.any_eq_true]
  constructor
  · rintro ⟨c, hc, hmatch⟩
    rw [getUserCompletions, List.mem_filter, Bool.and_eq_true] at hc
    rw [Bool.and_eq_true, beq_iff_eq] at hmatch
    exact ⟨c, hc.1, hmatch.1, hc.2.2⟩
  · rintro ⟨c, hc, hid, hge⟩
    refine ⟨c, ?_, ?_⟩
    · rw [getUserCompletions, List.mem_filter, Bool.and_eq_true]
      refine ⟨hc, ?_, hge⟩
      rw [List.any_eq_true]
      exact ⟨task, ht, by rw [Bool.and_eq_true, beq_iff_eq, beq_iff_eq]; exact ⟨hid.symm, hu⟩⟩
    · rw [Bool.and_eq_true, beq_iff_eq]
      exact ⟨hid, dateLe_trans hcut hge⟩

/-- Witness for the amended C4: a record inside the fetch window makes the
status true. -/
theorem onetime_status_amended_witness :
    ((⟨1, "u", Frequency.oneTime, 1, none⟩ : Task) ∈
        [(⟨1, "u", Frequency.oneTime, 1, none⟩ : Task)] ∧
      dateLe epochDate (getCompletionCutoffDate ⟨2024, 6, 15⟩) = true) ∧
      (taskStatus ⟨[], [⟨1, "u", Frequency.oneTime, 1, none⟩], [⟨1, ⟨2024, 5, 1⟩⟩]⟩
          "u" ⟨2024, 6, 15⟩ ⟨1, "u", Frequency.oneTime, 1, none⟩ = true ↔
        ∃ c ∈ [(⟨1, ⟨2024, 5, 1⟩⟩ : Completion)], c.task_id = 1 ∧
          dateLe (getCompletionCutoffDate ⟨2024, 6, 15⟩) c.completed_date = true) :=
  ⟨⟨by decide, by decide⟩,
    onetime_status_amended ⟨[], [⟨1, "u", Frequency.oneTime, 1, none⟩], [⟨1, ⟨2024, 5, 1⟩⟩]⟩
      "u" ⟨2024, 6, 15⟩ ⟨1, "u", Frequency.oneTime, 1, none⟩
      (by decide) rfl rfl (by decide)⟩

lemma completionPred_iff (c : Completion) (t : Nat) (d : Date) :
    (c.task_id == t && c.completed_date == d) = true ↔ c = ⟨t, d⟩ := by
  cases c
  simp [Completion.mk.injEq]

lemma any_completionPred (L : List Completion) (t : Nat) (d : Date) :
    L.any (fun c => c.task_id == t && c.completed_date == d) = true ↔
      (⟨t, d⟩ : Completion) ∈ L := by
  rw [List.any_eq_true]
  constructor
  · rintro ⟨x, hx, hp⟩
    rw [completionPred_iff] at hp
    rw [hp] at hx
    exact hx
  · intro h
    exact ⟨⟨t, d⟩, h, by simp⟩

lemma mem_record (L : List Completion) (t : Nat) (d : Date) (c : Completion) :
    c ∈ record L t d ↔ c ∈ L ∨ c = ⟨t, d⟩ := by
  rw [record]
  split
  · next hg =>
      rw [any_completionPred] at hg
      constructor
      · exact Or.inl
      · rintro (h | rfl)
        · exact h
        · exact hg
  · next hg =>
      simp [List.mem_append]

lemma mem_unrecord (L : List Completion) (t : Nat) (d : Date) (c : Completion) :
    c ∈ unrecord L t d ↔ c ∈ L ∧ c ≠ ⟨t, d⟩ := by
  rw [unrecord]
  simp only [List.mem_filter, Bool.not_eq_true']
  constructor
  · rintro ⟨hm, hp⟩
    refine ⟨hm, fun he => ?_⟩
    rw [(completionPred_iff c t d).mpr he] at hp
    simp at hp
  · rintro ⟨hm, hne⟩
    refine ⟨hm, ?_⟩
    cases hp : (c.task_id == t && c.completed_date == d)
    · rfl
    · exact absurd ((completionPred_iff c t d).mp hp) hne

lemma any_mem_congr {α : Type} (p : α → Bool) {L1 L2 : List α}
    (h : ∀ c, c ∈ L1 ↔ c ∈ L2) : L1.any p = L2.any p := by
  have h1 : L1.any p = true ↔ L2.any p = true := by
    rw [List.any_eq_true, List.any_eq_true]
    constructor
    · rintro ⟨x, hx, hp⟩
      exact ⟨x, (h x).mp hx, hp⟩
    · rintro ⟨x, hx, hp⟩
      exact ⟨x, (h x).mpr hx, hp⟩
  cases e1 : L1.any p <;> cases e2 : L2.any p <;> simp_all

lemma getUserCompletions_congr (db1 db2 : DB) (userId : String) (today : Date)
    (htasks : db1.tasks = db2.tasks)
    (hcomp : ∀ c, c ∈ db1.completions ↔ c ∈ db2.completions) (c : Completion) :
    c ∈ getUserCompletions db1 userId today ↔ c ∈ getUserCompletions db2 userId today := by
  rw [getUserCompletions, getUserCompletions, List.mem_filter, List.mem_filter, htasks,
    hcomp c]

lemma toggleTask_tasks (db : DB) (id : Nat) (userId : String) (today : Date) :
    (toggleTask db id userId today).tasks = db.tasks := by
  rw [toggleTask]
  split
  · split <;> rfl
  · rfl

lemma toggleTask_categories (db : DB) (id : Nat) (userId : String) (today : Date) :
    (toggleTask db id userId today).categories = db.categories := by
  rw [toggleTask]
  split
  · split <;> rfl
  · rfl

lemma toggleTask_completions_mem (db : DB) (id : Nat) (userId : String) (today : Date)
    (hg : db.tasks.any (fun t => t.id == id && t.user_id == userId) = true)
    (c : Completion) :
    c ∈ (toggleTask db id userId today).completions ↔
      (if (⟨id, today⟩ : Completion) ∈ db.completions
       then c ∈ db.completions ∧ c ≠ ⟨id, today⟩
       else c ∈ db.completions ∨ c = ⟨id, today⟩) := by
  rw [toggleTask, if_pos hg]
  by_cases hin : (⟨id, today⟩ : Completion) ∈ db.completions
  · rw [if_pos ((any_completionPred db.completions id today).mpr hin), if_pos hin]
    exact mem_unrecord db.completions id today c
  · have hga : db.completions.any
        (fun c => c.task_id == id && c.completed_date == today) = false := by
      cases e : db.completions.any (fun c => c.task_id == id && c.completed_date == today)
      · rfl
      · exact absurd ((any_completionPred db.completions id today).mp e) hin
    rw [if_neg (by rw [hga]; exact Bool.false_ne_true), if_neg hin]
    exact mem_record db.completions id today c

/-- C5: toggling the same existing, user-owned task twice on the same day
leaves the task's derived completion status exactly as before the first
toggle. -/
theorem toggle_twice_status (db : DB) (id : Nat) (userId : String) (today : Date)
    (task : Task) (hmem : task ∈ db.tasks) (hid : task.id = id)
    (huser : task.user_id = userId) :
    taskStatus (toggleTask (toggleTask db id userId today) id userId today)
        userId today task
      = taskStatus db userId today task := by
  have hg : db.tasks.any (fun t => t.id == id && t.user_id == userId) = true :=
    List.any_eq_true.mpr ⟨task, hmem, by simp [hid, huser]⟩
  have ht1 := toggleTask_tasks db id userId today
  have hg1 : (toggleTask db id userId today).tasks.any
      (fun t => t.id == id && t.user_id == userId) = true := by
    rw [ht1]; exact hg
  have ht2 := toggleTask_tasks (toggleTask db id userId today) id userId today
  have hmm : ∀ c, c ∈ (toggleTask (toggleTask db id userId today) id userId today).completions
      ↔ c ∈ db.completions := by
    intro c
    rw [toggleTask_completions_mem (toggleTask db id userId today) id userId today hg1 c]
    by_cases hin : (⟨id, today⟩ : Completion) ∈ db.completions
    · have h1 : ∀ x, x ∈ (toggleTask db id userId today).completions ↔
          (x ∈ db.completions ∧ x ≠ ⟨id, today⟩) := by
        intro x
        rw [toggleTask_completions_mem db id userId today hg x, if_pos hin]
      have hnot : (⟨id, today⟩ : Completion) ∉ (toggleTask db id userId today).completions := by
        rw [h1]
        rintro ⟨_, hne⟩
        exact hne rfl
      rw [if_neg hnot, h1 c]
      constructor
      · rintro (⟨h, _⟩ | rfl)
        · exact h
        · exact hin
      · intro h
        by_cases he : c = (⟨id, today⟩ : Completion)
        · exact Or.inr he
        · exact Or.inl ⟨h, he⟩
    · have h1 : ∀ x, x ∈ (toggleTask db id userId today).completions ↔
          (x ∈ db.completions ∨ x = ⟨id, today⟩) := by
        intro x
        rw [toggleTask_completions_mem db id userId today hg x, if_neg hin]
      have hyes : (⟨id, today⟩ : Completion) ∈ (toggleTask db id userId today).completions := by
        rw [h1]
        exact Or.inr rfl
      rw [if_pos hyes, h1 c]
      constructor
      · rintro ⟨h | rfl, hne⟩
        · exact h
        · exact absurd rfl hne
      · intro h
        exact ⟨Or.inl h, fun he => hin (he ▸ h)⟩
  rw [taskStatus, taskStatus, isTaskCompleted, isTaskCompleted]
  exact any_mem_congr _ fun c =>
    getUserCompletions_congr _ db userId today (by rw [ht2, ht1]) hmm c

/-- Witness for C5: toggling task 1 twice on 2024-06-15 (starting from a
ledger where it is completed today) restores the derived status. -/
theorem toggle_twice_status_witness :
    ((⟨1, "u", Frequency.daily, 1, none⟩ : Task) ∈
        [(⟨1, "u", Frequency.daily, 1, none⟩ : Task)]) ∧
      taskStatus
          (toggleTask (toggleTask
              ⟨[], [⟨1, "u", Frequency.daily, 1, none⟩], [⟨1, ⟨2024, 6, 15⟩⟩]⟩
              1 "u" ⟨2024, 6, 15⟩) 1 "u" ⟨2024, 6, 15⟩)
          "u" ⟨2024, 6, 15⟩ ⟨1, "u", Frequency.daily, 1, none⟩
        = taskStatus ⟨[], [⟨1, "u", Frequency.daily, 1, none⟩], [⟨1, ⟨2024, 6, 15⟩⟩]⟩
            "u" ⟨2024, 6, 15⟩ ⟨1, "u", Frequency.daily, 1, none⟩ :=
  ⟨by decide,
    toggle_twice_status ⟨[], [⟨1, "u", Frequency.daily, 1, none⟩], [⟨1, ⟨2024, 6, 15⟩⟩]⟩
      1 "u" ⟨2024, 6, 15⟩ ⟨1, "u", Frequency.daily, 1, none⟩ (by decide) rfl rfl⟩

/-- C6: recording an already-present (task, date) completion fact leaves the
ledger unchanged (record twice = record once), and unrecording an absent
fact is a no-op; both are total functions, never errors. -/
theorem record_unrecord_idempotent (L : List Completion) (t : Nat) (d : Date) :
    record (record L t d) t d = record L t d ∧
      ((∀ c ∈ L, ¬(c.task_id = t ∧ c.completed_date = d)) → unrecord L t d = L) := by
  constructor
  · by_cases hg : L.any (fun c => c.task_id == t && c.completed_date == d) = true
    · have hL : record L t d = L := by rw [record, if_pos hg]
      rw [hL, hL]
    · have hL : record L t d = L ++ [⟨t, d⟩] := by
        rw [record, if_neg hg]
      have hg2 : (record L t d).any
          (fun c => c.task_id == t && c.completed_date == d) = true := by
        rw [any_completionPred, hL]
        simp
      rw [record, if_pos hg2]
  · intro habs
    rw [unrecord]
    apply List.filter_eq_self.mpr
    intro c hc
    cases hp : (c.task_id == t && c.completed_date == d)
    · rfl
    · have := (completionPred_iff c t d).mp hp
      rw [this] at hc
      exact absurd ⟨rfl, rfl⟩ (habs ⟨t, d⟩ hc)

/-- Witness for C6 on a concrete ledger where the (1, 2024-06-15) fact is
absent: recording twice equals recording once, and unrecording it is a no-op. -/
theorem record_unrecord_idempotent_witness :
    record (record [(⟨2, ⟨2024, 6, 1⟩⟩ : Completion)] 1 ⟨2024, 6, 15⟩) 1 ⟨2024, 6, 15⟩
        = record [(⟨2, ⟨2024, 6, 1⟩⟩ : Completion)] 1 ⟨2024, 6, 15⟩ ∧
      unrecord [(⟨2, ⟨2024, 6, 1⟩⟩ : Completion)] 1 ⟨2024, 6, 15⟩
        = [(⟨2, ⟨2024, 6, 1⟩⟩ : Completion)] :=
  ⟨(record_unrecord_idempotent [(⟨2, ⟨2024, 6, 1⟩⟩ : Completion)] 1 ⟨2024, 6, 15⟩).1,
    (record_unrecord_idempotent [(⟨2, ⟨2024, 6, 1⟩⟩ : Completion)] 1 ⟨2024, 6, 15⟩).2
      (by decide)⟩

/-- C7: the retention sweep keeps exactly the completion facts dated on or
after the three-month cutoff and removes exactly those strictly before it;
with today = 2024-06-15 the cutoff is 2024-03-15, a fact dated 2024-03-14 is
swept and one dated 2024-03-15 is retained. -/
theorem sweep_exact (db : DB) (today : Date) :
    (∀ c, c ∈ (cleanupOldCompletions db today).completions ↔
        c ∈ db.completions ∧
          dateLt c.completed_date (getCompletionCutoffDate today) = false) ∧
      getCompletionCutoffDate ⟨2024, 6, 15⟩ = ⟨2024, 3, 15⟩ ∧
      (cleanupOldCompletions
          ⟨[], [], [⟨1, ⟨2024, 3, 14⟩⟩, ⟨1, ⟨2024, 3, 15⟩⟩]⟩ ⟨2024, 6, 15⟩).completions
        = [⟨1, ⟨2024, 3, 15⟩⟩] := by
  refine ⟨?_, by decide, by decide⟩
  intro c
  rw [cleanupOldCompletions]
  simp [List.mem_filter]

/-- C9: the toggle-off branch (the task exists, is owned by the requester,
and has a completion fact for today) removes exactly today's fact for that
task: a fact survives iff it was present and is not the (task, today) pair;
tasks and categories are untouched. -/
theorem toggle_off_frame (db : DB) (id : Nat) (userId : String) (today : Date)
    (htask : db.tasks.any (fun t => t.id == id && t.user_id == userId) = true)
    (hfact : (⟨id, today⟩ : Completion) ∈ db.completions) :
    (∀ c, c ∈ (toggleTask db id userId today).completions ↔
        c ∈ db.completions ∧ ¬(c.task_id = id ∧ c.completed_date = today)) ∧
      (toggleTask db id userId today).tasks = db.tasks ∧
      (toggleTask db id userId today).categories = db.categories := by
  refine ⟨?_, toggleTask_tasks db id userId today, toggleTask_categories db id userId today⟩
  intro c
  rw [toggleTask_completions_mem db id userId today htask c, if_pos hfact]
  constructor
  · rintro ⟨hm, hne⟩
    refine ⟨hm, fun hp => hne ?_⟩
    cases c
    simp only at hp
    rw [hp.1, hp.2]
  · rintro ⟨hm, hnp⟩
    refine ⟨hm, fun he => hnp ?_⟩
    rw [he]
    exact ⟨rfl, rfl⟩

/-- Witness for C9 on a two-fact ledger: the other-date fact survives. -/
theorem toggle_off_frame_witness :
    ([(⟨1, "u", Frequency.daily, 1, none⟩ : Task)].any
        (fun t => t.id == 1 && t.user_id == "u") = true ∧
      (⟨1, ⟨2024, 6, 15⟩⟩ : Completion) ∈
        [(⟨1, ⟨2024, 6, 15⟩⟩ : Completion), ⟨1, ⟨2024, 6, 14⟩⟩]) ∧
      ((∀ c, c ∈ (toggleTask
            ⟨[], [⟨1, "u", Frequency.daily, 1, none⟩],
              [⟨1, ⟨2024, 6, 15⟩⟩, ⟨1, ⟨2024, 6, 14⟩⟩]⟩ 1 "u" ⟨2024, 6, 15⟩).completions ↔
          c ∈ [(⟨1, ⟨2024, 6, 15⟩⟩ : Completion), ⟨1, ⟨2024, 6, 14⟩⟩] ∧
            ¬(c.task_id = 1 ∧ c.completed_date = ⟨2024, 6, 15⟩)) ∧
        (toggleTask ⟨[], [⟨1, "u", Frequency.daily, 1, none⟩],
            [⟨1, ⟨2024, 6, 15⟩⟩, ⟨1, ⟨2024, 6, 14⟩⟩]⟩ 1 "u" ⟨2024, 6, 15⟩).tasks
          = [⟨1, "u", Frequency.daily, 1, none⟩] ∧
        (toggleTask ⟨[], [⟨1, "u", Frequency.daily, 1, none⟩],
            [⟨1, ⟨2024, 6, 15⟩⟩, ⟨1, ⟨2024, 6, 14⟩⟩]⟩ 1 "u" ⟨2024, 6, 15⟩).categories
          = []) :=
  ⟨⟨by decide, by decide⟩,
    toggle_off_frame ⟨[], [⟨1, "u", Frequency.daily, 1, none⟩],
      [⟨1, ⟨2024, 6, 15⟩⟩, ⟨1, ⟨2024, 6, 14⟩⟩]⟩ 1 "u" ⟨2024, 6, 15⟩ (by decide) (by decide)⟩

/-- C8: deleting a category the requester owns (given the API invariant that
every task referencing a category belongs to the category's owner) removes
the category, removes every task referencing it, and — via the ledger's
`ON DELETE CASCADE` foreign key — leaves no completion record of any deleted
task in the store. -/
theorem delete_category_cascade (db : DB) (cid : Nat) (userId : String) (cat : Category)
    (hcmem : cat ∈ db.categories) (hcid : cat.id = cid) (hcuser : cat.user_id = userId)
    (hown : ∀ t ∈ db.tasks, t.category_id = cid → t.user_id = userId) :
    (∀ c ∈ (deleteCategory db cid userId).categories, ¬(c.id = cid ∧ c.user_id = userId)) ∧
      (∀ t ∈ (deleteCategory db cid userId).tasks, t.category_id ≠ cid) ∧
      (∀ c ∈ (deleteCategory db cid userId).completions,
        ∀ t ∈ db.tasks, t.category_id = cid → c.task_id ≠ t.id) := by
  have hg : db.categories.any (fun c => c.id == cid && c.user_id == userId) = true :=
    List.any_eq_true.mpr ⟨cat, hcmem, by simp [hcid, hcuser]⟩
  rw [deleteCategory, if_pos hg]
  refine ⟨?_, ?_, ?_⟩
  · intro c hc
    rw [List.mem_filter] at hc
    rintro ⟨h1, h2⟩
    have := hc.2
    simp [h1, h2] at this
  · intro t ht
    rw [List.mem_filter] at ht
    intro hcat
    have huser := hown t ht.1 hcat
    have := ht.2
    simp [hcat, huser] at this
  · intro c hc t ht htc
    rw [List.mem_filter] at hc
    intro heq
    have hany : db.tasks.any
        (fun t' => (t'.category_id == cid && t'.user_id == userId) && t'.id == c.task_id)
          = true :=
      List.any_eq_true.mpr ⟨t, ht, by simp [htc, hown t ht htc, heq]⟩
    have := hc.2
    simp [hany] at this

/-- Witness for C8 on a one-category, one-task, one-completion store. -/
theorem delete_category_cascade_witness :
    ((⟨2, "u", "chores"⟩ : Category) ∈ [(⟨2, "u", "chores"⟩ : Category)] ∧
      (∀ t ∈ [(⟨1, "u", Frequency.daily, 2, none⟩ : Task)],
        t.category_id = 2 → t.user_id = "u")) ∧
      ((∀ c ∈ (deleteCategory ⟨[⟨2, "u", "chores"⟩], [⟨1, "u", Frequency.daily, 2, none⟩],
            [⟨1, ⟨2024, 6, 15⟩⟩]⟩ 2 "u").categories, ¬(c.id = 2 ∧ c.user_id = "u")) ∧
        (∀ t ∈ (deleteCategory ⟨[⟨2, "u", "chores"⟩], [⟨1, "u", Frequency.daily, 2, none⟩],
            [⟨1, ⟨2024, 6, 15⟩⟩]⟩ 2 "u").tasks, t.category_id ≠ 2) ∧
        (∀ c ∈ (deleteCategory ⟨[⟨2, "u", "chores"⟩], [⟨1, "u", Frequency.daily, 2, none⟩],
            [⟨1, ⟨2024, 6, 15⟩⟩]⟩ 2 "u").completions,
          ∀ t ∈ [(⟨1, "u", Frequency.daily, 2, none⟩ : Task)],
            t.category_id = 2 → c.task_id ≠ t.id)) :=
  ⟨⟨by decide, by decide⟩,
    delete_category_cascade ⟨[⟨2, "u", "chores"⟩], [⟨1, "u", Frequency.daily, 2, none⟩],
      [⟨1, ⟨2024, 6, 15⟩⟩]⟩ 2 "u" ⟨2, "u", "chores"⟩ (by decide) rfl rfl (by decide)⟩

end TaskTracker
